import Mathlib

/-!
# Verification of the jobsuche client core

Shallow embedding of the resilient-retrieval core of the `jobsuche`
crate (query encoding, error classification, retry policy, reference
number base64 codec, and the lazy pagination engine), with theorems
settling the specification claims against it.

Conventions:
* Machine integers (`u64`, `usize`, HTTP status codes) are `Nat`;
  overflow is made explicit where the source can overflow.
* Fallible Rust code (`Result<T, Error>`) is `Except Error T`.
* External collaborators (the HTTP transport, `serde_json` decoding,
  `httpdate` parsing relative to "now") are parameters of the embedded
  functions, exactly as §6 of the design treats them ("the core receives
  from its environment a function ...").
-/

/-- Embeds `ApiErrors` from `src/errors.rs`: the structured error payload
with `errors` and `error_messages` lists (both defaulting to empty). -/
structure ApiErrors where
  errors : List String
  error_messages : List String
deriving DecidableEq, Repr

/-- Embeds `enum Error` from `src/errors.rs`.  Payloads that are opaque
external causes (`reqwest::Error`, `std::io::Error`, `serde_json::Error`,
`url::ParseError`, `base64::DecodeError`) are dropped: only the variant
(and the data the claims inspect) matters.  `Fault` keeps the HTTP status
code and the parsed `ApiErrors`; `RateLimited` keeps the optional
`retry_after` seconds.  The source's `Error::IO` variant is spelled
`Io` here. -/
inductive Error where
  | Http : Error
  | Io : Error
  | Serde : Error
  | Fault (code : Nat) (errors : ApiErrors) : Error
  | Unauthorized : Error
  | Forbidden : Error
  | NotFound : Error
  | MethodNotAllowed : Error
  | RateLimited (retry_after : Option Nat) : Error
  | ParseError : Error
  | ConfigError (message : String) : Error
  | BuilderError (message : String) : Error
  | Base64Error : Error
deriving DecidableEq, Repr

/-! ## Reference-number codec (`src/core.rs`)

`encode_refnr` / `decode_refnr` call the `base64` crate's
`general_purpose::STANDARD` engine (standard alphabet, padding required,
canonical trailing bits) on the UTF-8 bytes of the string, and
`String::from_utf8_lossy` on the decoded bytes.  We embed the UTF-8
encoder, Rust's lossy UTF-8 decoder, and the standard base64 codec at the
byte level (`List Nat`, each byte `< 256`). -/

/-- UTF-8 encoding of a single scalar value, by code-point range. -/
def utf8EncodeChar (c : Char) : List Nat :=
  let n := c.toNat
  if n < 0x80 then [n]
  else if n < 0x800 then [0xC0 + n / 64, 0x80 + n % 64]
  else if n < 0x10000 then
    [0xE0 + n / 4096, 0x80 + n / 64 % 64, 0x80 + n % 64]
  else
    [0xF0 + n / 0x40000, 0x80 + n / 4096 % 64, 0x80 + n / 64 % 64,
      0x80 + n % 64]

/-- UTF-8 byte sequence of a string (what `str::as_bytes` exposes). -/
def utf8Encode (s : String) : List Nat :=
  (s.data.map utf8EncodeChar).flatten

/-- The replacement character U+FFFD used by `String::from_utf8_lossy`. -/
def replacementChar : Char := '�'

/-- Worker for `utf8Lossy`, structurally recursive on a fuel argument.
Each step consumes at least one byte, so fuel equal to the byte count
(as supplied by `utf8Lossy`) is never exhausted. -/
def utf8LossyAux : Nat → List Nat → List Char
  | 0, _ => []
  | _ + 1, [] => []
  | fuel + 1, b1 :: rest =>
    if b1 < 0x80 then Char.ofNat b1 :: utf8LossyAux fuel rest
    else if b1 < 0xC2 then replacementChar :: utf8LossyAux fuel rest
    else if b1 < 0xE0 then
      match rest with
      | b2 :: rest2 =>
        if 0x80 ≤ b2 ∧ b2 < 0xC0 then
          Char.ofNat ((b1 - 0xC0) * 64 + (b2 - 0x80)) :: utf8LossyAux fuel rest2
        else replacementChar :: utf8LossyAux fuel rest
      | [] => [replacementChar]
    else if b1 < 0xF0 then
      match rest with
      | b2 :: rest2 =>
        let lo2 := if b1 = 0xE0 then 0xA0 else 0x80
        let hi2 := if b1 = 0xED then 0xA0 else 0xC0
        if lo2 ≤ b2 ∧ b2 < hi2 then
          match rest2 with
          | b3 :: rest3 =>
            if 0x80 ≤ b3 ∧ b3 < 0xC0 then
              Char.ofNat ((b1 - 0xE0) * 4096 + (b2 - 0x80) * 64 + (b3 - 0x80))
                :: utf8LossyAux fuel rest3
            else replacementChar :: utf8LossyAux fuel rest2
          | [] => [replacementChar]
        else replacementChar :: utf8LossyAux fuel rest
      | [] => [replacementChar]
    else if b1 < 0xF5 then
      match rest with
      | b2 :: rest2 =>
        let lo2 := if b1 = 0xF0 then 0x90 else 0x80
        let hi2 := if b1 = 0xF4 then 0x90 else 0xC0
        if lo2 ≤ b2 ∧ b2 < hi2 then
          match rest2 with
          | b3 :: rest3 =>
            if 0x80 ≤ b3 ∧ b3 < 0xC0 then
              match rest3 with
              | b4 :: rest4 =>
                if 0x80 ≤ b4 ∧ b4 < 0xC0 then
                  Char.ofNat ((b1 - 0xF0) * 0x40000 + (b2 - 0x80) * 4096 +
                      (b3 - 0x80) * 64 + (b4 - 0x80)) :: utf8LossyAux fuel rest4
                else replacementChar :: utf8LossyAux fuel rest3
              | [] => [replacementChar]
            else replacementChar :: utf8LossyAux fuel rest2
          | [] => [replacementChar]
        else replacementChar :: utf8LossyAux fuel rest
      | [] => [replacementChar]
    else replacementChar :: utf8LossyAux fuel rest

/-- Embeds `String::from_utf8_lossy`: decode UTF-8, replacing each
maximal invalid subpart by U+FFFD.  Continuation bytes are `0x80–0xBF`,
with the narrowed second-byte ranges for `0xE0`, `0xED`, `0xF0`, `0xF4`
exactly as in Rust's `core::str` validator. -/
def utf8Lossy (bs : List Nat) : List Char :=
  utf8LossyAux bs.length bs

/-- The standard base64 alphabet, sextet to character. -/
def b64char (n : Nat) : Char :=
  if n < 26 then Char.ofNat (65 + n)
  else if n < 52 then Char.ofNat (97 + (n - 26))
  else if n < 62 then Char.ofNat (48 + (n - 52))
  else if n = 62 then '+'
  else '/'

/-- Inverse of the standard base64 alphabet; `none` off-alphabet. -/
def b64val (c : Char) : Option Nat :=
  if 'A' ≤ c ∧ c ≤ 'Z' then some (c.toNat - 65)
  else if 'a' ≤ c ∧ c ≤ 'z' then some (c.toNat - 97 + 26)
  else if '0' ≤ c ∧ c ≤ '9' then some (c.toNat - 48 + 52)
  else if c = '+' then some 62
  else if c = '/' then some 63
  else none

/-- Standard base64 encoding with padding, three input bytes per four
output characters (the `base64` crate's `STANDARD` engine, encode side). -/
def encodeB64 : List Nat → List Char
  | [] => []
  | [b1] => [b64char (b1 / 4), b64char (b1 % 4 * 16), '=', '=']
  | [b1, b2] =>
    [b64char (b1 / 4), b64char (b1 % 4 * 16 + b2 / 16),
      b64char (b2 % 16 * 4), '=']
  | b1 :: b2 :: b3 :: rest =>
    b64char (b1 / 4) :: b64char (b1 % 4 * 16 + b2 / 16) ::
      b64char (b2 % 16 * 4 + b3 / 64) :: b64char (b3 % 64) :: encodeB64 rest

/-- Standard base64 decoding (the `base64` crate's `STANDARD` engine,
decode side): length must be a multiple of four, canonical padding is
required, padding may appear only in the final group, and non-zero
trailing bits are rejected. -/
def decodeB64 : List Char → Option (List Nat)
  | [] => some []
  | c1 :: c2 :: c3 :: c4 :: rest =>
    match b64val c1, b64val c2 with
    | some d1, some d2 =>
      if c3 = '=' then
        if c4 = '=' ∧ rest = [] ∧ d2 % 16 = 0 then
          some [d1 * 4 + d2 / 16]
        else none
      else
        match b64val c3 with
        | some d3 =>
          if c4 = '=' then
            if rest = [] ∧ d3 % 4 = 0 then
              some [d1 * 4 + d2 / 16, d2 % 16 * 16 + d3 / 4]
            else none
          else
            match b64val c4 with
            | some d4 =>
              (decodeB64 rest).map fun bs =>
                (d1 * 4 + d2 / 16) :: (d2 % 16 * 16 + d3 / 4) ::
                  (d3 % 4 * 64 + d4) :: bs
            | none => none
        | none => none
    | _, _ => none
  | _ => none

/-- Embeds `encode_refnr` (`src/core.rs`): base64-encode the reference
number's UTF-8 bytes with the standard alphabet and padding. -/
def encode_refnr (refnr : String) : String :=
  String.mk (encodeB64 (utf8Encode refnr))

/-- Embeds `decode_refnr` (`src/core.rs`): base64-decode, then convert
the bytes to a string lossily; a base64 failure becomes
`Error::Base64Error` via the `?` operator's `From` conversion. -/
def decode_refnr (encoded : String) : Except Error String :=
  match decodeB64 encoded.data with
  | some bytes => Except.ok (String.mk (utf8Lossy bytes))
  | none => Except.error Error.Base64Error

/-! ### Round-trip lemmas for the refnr codec -/

/-- Decoding inverts encoding on every base64 sextet. -/
theorem b64val_b64char : ∀ d < 64, b64val (b64char d) = some d := by
  decide

/-- The alphabet never produces the padding character. -/
theorem b64char_ne_pad : ∀ d < 64, b64char d ≠ '=' := by
  decide

/-- Base64 decode is a left inverse of encode on byte lists. -/
theorem decodeB64_encodeB64 (bs : List Nat) (h : ∀ b ∈ bs, b < 256) :
    decodeB64 (encodeB64 bs) = some bs := by
  induction bs using encodeB64.induct with
  | case1 => rfl
  | case2 b1 =>
    have hb1 : b1 < 256 := h b1 (by simp)
    have h1 : b1 / 4 < 64 := by omega
    have h2 : b1 % 4 * 16 < 64 := by omega
    simp only [encodeB64, decodeB64, b64val_b64char _ h1, b64val_b64char _ h2]
    have : b1 % 4 * 16 % 16 = 0 := by omega
    simp [this]
    omega
  | case3 b1 b2 =>
    have hb1 : b1 < 256 := h b1 (by simp)
    have hb2 : b2 < 256 := h b2 (by simp)
    have h1 : b1 / 4 < 64 := by omega
    have h2 : b1 % 4 * 16 + b2 / 16 < 64 := by omega
    have h3 : b2 % 16 * 4 < 64 := by omega
    simp only [encodeB64, decodeB64, b64val_b64char _ h1, b64val_b64char _ h2,
      b64char_ne_pad _ h3, if_neg (b64char_ne_pad _ h3),
      b64val_b64char _ h3]
    have : b2 % 16 * 4 % 4 = 0 := by omega
    simp [this]
    constructor <;> omega
  | case4 b1 b2 b3 rest ih =>
    have hb1 : b1 < 256 := h b1 (by simp)
    have hb2 : b2 < 256 := h b2 (by simp)
    have hb3 : b3 < 256 := h b3 (by simp)
    have h1 : b1 / 4 < 64 := by omega
    have h2 : b1 % 4 * 16 + b2 / 16 < 64 := by omega
    have h3 : b2 % 16 * 4 + b3 / 64 < 64 := by omega
    have h4 : b3 % 64 < 64 := by omega
    have ih' := ih (fun b hb => h b (by simp [hb]))
    simp only [encodeB64, decodeB64, b64val_b64char _ h1, b64val_b64char _ h2,
      if_neg (b64char_ne_pad _ h3), b64val_b64char _ h3,
      if_neg (b64char_ne_pad _ h4), b64val_b64char _ h4, ih', Option.map_some]
    have e1 : (b1 / 4) * 4 + (b1 % 4 * 16 + b2 / 16) / 16 = b1 := by omega
    have e2 :
        (b1 % 4 * 16 + b2 / 16) % 16 * 16 + (b2 % 16 * 4 + b3 / 64) / 4 = b2 := by
      omega
    have e3 : (b2 % 16 * 4 + b3 / 64) % 4 * 64 + b3 % 64 = b3 := by omega
    simp [e1, e2, e3]

/-- On ASCII characters UTF-8 encoding is the identity on code points. -/
theorem utf8Encode_ascii (cs : List Char) (h : ∀ c ∈ cs, c.toNat < 128) :
    ((cs.map utf8EncodeChar).flatten) = cs.map Char.toNat := by
  induction cs with
  | nil => rfl
  | cons c cs ih =>
    have hc : c.toNat < 128 := h c (by simp)
    simp only [List.map_cons, List.flatten_cons, utf8EncodeChar, if_pos hc]
    simp [ih fun d hd => h d (by simp [hd])]

/-- The lossy decoder worker is the identity on ASCII byte sequences,
for any sufficient fuel. -/
theorem utf8LossyAux_ascii :
    ∀ (fuel : Nat) (cs : List Char), cs.length ≤ fuel →
      (∀ c ∈ cs, c.toNat < 128) →
      utf8LossyAux fuel (cs.map Char.toNat) = cs := by
  intro fuel
  induction fuel with
  | zero =>
    intro cs hlen _
    rw [Nat.le_zero, List.length_eq_zero] at hlen
    subst hlen
    rfl
  | succ n ih =>
    intro cs hlen h
    match cs with
    | [] => rfl
    | c :: cs' =>
      have hc : c.toNat < 128 := h c (by simp)
      simp only [List.map_cons, utf8LossyAux, if_pos hc, Char.ofNat_toNat]
      refine congrArg _ (ih cs' ?_ fun d hd => h d (by simp [hd]))
      simpa using Nat.le_of_succ_le_succ hlen

/-- The lossy UTF-8 decoder is the identity on ASCII byte sequences. -/
theorem utf8Lossy_ascii (cs : List Char) (h : ∀ c ∈ cs, c.toNat < 128) :
    utf8Lossy (cs.map Char.toNat) = cs := by
  rw [utf8Lossy, List.length_map]
  exact utf8LossyAux_ascii cs.length cs le_rfl h

/-- Every code point is below 0x110000. -/
theorem char_toNat_lt (c : Char) : c.toNat < 0x110000 := by
  rcases c.valid with h | ⟨_, h2⟩
  · exact Nat.lt_of_lt_of_le h (by norm_num)
  · exact h2

/-- Every UTF-8 byte produced by the encoder is below 245 (the largest
possible byte is the lead byte `0xF4`). -/
theorem utf8EncodeChar_lt_245 (c : Char) : ∀ b ∈ utf8EncodeChar c, b < 245 := by
  intro b hb
  have hn : c.toNat < 0x110000 := char_toNat_lt c
  simp only [utf8EncodeChar] at hb
  repeat' split at hb
  all_goals simp only [List.mem_cons, List.not_mem_nil, or_false] at hb
  all_goals omega

/-- Every UTF-8 byte of an encoded string is below 245. -/
theorem utf8Encode_lt_245 (s : String) : ∀ b ∈ utf8Encode s, b < 245 := by
  intro b hb
  simp only [utf8Encode, List.mem_flatten] at hb
  obtain ⟨l, hl, hbl⟩ := hb
  simp only [List.mem_map] at hl
  obtain ⟨c, _, rfl⟩ := hl
  exact utf8EncodeChar_lt_245 c b hbl

/-- Every UTF-8 byte of an encoded string is below 256. -/
theorem utf8Encode_lt_256 (s : String) : ∀ b ∈ utf8Encode s, b < 256 :=
  fun b hb => Nat.lt_of_lt_of_le (utf8Encode_lt_245 s b hb) (by norm_num)

/-- A byte sequence is valid UTF-8 iff it is the UTF-8 encoding of some
string. -/
def ValidUtf8 (bs : List Nat) : Prop :=
  ∃ t : String, utf8Encode t = bs

/-- C9: for every reference-number string composed of printable ASCII
characters, `decode_refnr (encode_refnr s)` succeeds and returns exactly
`s`: the standard-alphabet padded base64 encoding round-trips losslessly. -/
theorem c9_refnr_roundtrip (s : String)
    (h : ∀ c ∈ s.data, 32 ≤ c.toNat ∧ c.toNat ≤ 126) :
    decode_refnr (encode_refnr s) = Except.ok s := by
  have hlt : ∀ c ∈ s.data, c.toNat < 128 := fun c hc => by
    have := h c hc
    omega
  have h256 := utf8Encode_lt_256 s
  show (match decodeB64 (encodeB64 (utf8Encode s)) with
    | some bytes => Except.ok (String.mk (utf8Lossy bytes))
    | none => Except.error Error.Base64Error) = Except.ok s
  rw [decodeB64_encodeB64 _ h256]
  show Except.ok (String.mk (utf8Lossy (utf8Encode s))) = Except.ok s
  rw [show utf8Encode s = s.data.map Char.toNat from utf8Encode_ascii s.data hlt,
    utf8Lossy_ascii s.data hlt]

/-- Witness for C9 at the reference number from the crate's own tests. -/
theorem c9_refnr_roundtrip_witness :
    (∀ c ∈ ("10001-1001601666-S" : String).data,
        32 ≤ c.toNat ∧ c.toNat ≤ 126) ∧
      decode_refnr (encode_refnr "10001-1001601666-S") =
        Except.ok "10001-1001601666-S" :=
  ⟨by decide, c9_refnr_roundtrip "10001-1001601666-S" (by decide)⟩

/-- C10: `decode_refnr` returns `Ok` exactly on valid standard-alphabet
base64 inputs — invalid UTF-8 in the decoded bytes is replaced lossily
(e.g. `"/w=="`, which decodes to the non-UTF-8 byte `0xFF`, yields
`Ok "�"`), never an error — and whenever the decode–encode round
trip is lossless the decoded bytes were valid UTF-8. -/
theorem c10_decode_refnr_lossy :
    (∀ (s : String) (bs : List Nat), decodeB64 s.data = some bs →
        decode_refnr s = Except.ok (String.mk (utf8Lossy bs))) ∧
      (∀ s : String, decodeB64 s.data = none →
        decode_refnr s = Except.error Error.Base64Error) ∧
      decode_refnr "/w==" = Except.ok "�" ∧
      ¬ ValidUtf8 [255] ∧
      (∀ (s : String) (bs : List Nat), decodeB64 s.data = some bs →
        encode_refnr (String.mk (utf8Lossy bs)) = s → ValidUtf8 bs) := by
  refine ⟨?_, ?_, ?_, ?_, ?_⟩
  · intro s bs hdec
    show (match decodeB64 s.data with
      | some bytes => Except.ok (String.mk (utf8Lossy bytes))
      | none => Except.error Error.Base64Error) = _
    rw [hdec]
  · intro s hdec
    show (match decodeB64 s.data with
      | some bytes => Except.ok (String.mk (utf8Lossy bytes))
      | none => Except.error Error.Base64Error) = _
    rw [hdec]
  · rfl
  · rintro ⟨t, ht⟩
    have h255 : (255 : Nat) ∈ utf8Encode t := by
      rw [ht]
      simp
    exact absurd (utf8Encode_lt_245 t 255 h255) (by norm_num)
  · intro s bs hdec henc
    have hd2 : decodeB64 s.data =
        some (utf8Encode (String.mk (utf8Lossy bs))) := by
      rw [← henc]
      exact decodeB64_encodeB64 _ (utf8Encode_lt_256 _)
    rw [hdec] at hd2
    exact ⟨String.mk (utf8Lossy bs), (Option.some_injective _ hd2).symm⟩

/-- Witness for C10: a valid base64 input decoding to invalid UTF-8 still
succeeds, and a non-base64 input is the only failure mode. -/
theorem c10_decode_refnr_lossy_witness :
    decode_refnr "/w==" = Except.ok "�" ∧
      decode_refnr "!!!" = Except.error Error.Base64Error :=
  ⟨c10_decode_refnr_lossy.2.2.1, c10_decode_refnr_lossy.2.1 "!!!" rfl⟩

/-! ## Error classification (`src/sync.rs` and `src/async_client.rs`)

`error_from_status` maps a non-success HTTP outcome (status code, header
map, body) to an `Error`.  Two external collaborators are parameters:
`parseApiErrors` stands for `serde_json::from_str::<ApiErrors>` (it
returns `none` exactly on bodies that are not a JSON object of the
`ApiErrors` shape, e.g. plain text), and `httpDateDur` stands for
`httpdate::parse_http_date` composed with `duration_since(now)` in whole
seconds (`none` when the date does not parse or lies in the past).  The
body is `Option String`: `none` models a failing body read
(`read_to_string` in the sync client, `text()` in the async client). -/

/-- Embeds `HeaderValue::to_str`: succeeds only when every character is
visible ASCII, space or horizontal tab. -/
def headerToStr (v : String) : Option String :=
  if v.data.all (fun c => c.toNat = 9 ∨ (32 ≤ c.toNat ∧ c.toNat < 127)) then
    some v
  else none

/-- Embeds `HeaderMap::get`: header names compare case-insensitively
(ASCII lowering, done character by character). -/
def findHeader (headers : List (String × String)) (name : String) :
    Option String :=
  (headers.find? fun h =>
    h.1.data.map Char.toLower = name.data.map Char.toLower).map (·.2)

/-- Embeds `str::parse::<u64>`: optional leading `+`, at least one digit,
digits only, and the value must fit in 64 bits. -/
def parseU64 (s : String) : Option Nat :=
  let cs := match s.data with
    | '+' :: rest => rest
    | cs => cs
  if cs.isEmpty then none
  else if cs.all Char.isDigit then
    let v := cs.foldl (fun a c => a * 10 + (c.toNat - 48)) 0
    if v < 2 ^ 64 then some v else none
  else none

/-- The `Retry-After` parsing chain of `error_from_status`: delay-seconds
first, then HTTP-date converted to a duration from now. -/
def parseRetryAfter (httpDateDur : String → Option Nat) (s : String) :
    Option Nat :=
  match parseU64 s with
  | some seconds => some seconds
  | none => httpDateDur s

/-- Embeds `Jobsuche::error_from_status` (`src/sync.rs`): exact mapping
for 401/403/404/405/429; for 429 the `Retry-After` header is parsed by
`parseRetryAfter`; for every other status the body is parsed as
`ApiErrors` (giving `Fault` with the status preserved) and otherwise the
result is the generic `Http` error from `error_for_status`. -/
def Jobsuche.error_from_status (parseApiErrors : String → Option ApiErrors)
    (httpDateDur : String → Option Nat) (status : Nat)
    (headers : List (String × String)) (body : Option String) : Error :=
  if status = 401 then Error.Unauthorized
  else if status = 403 then Error.Forbidden
  else if status = 404 then Error.NotFound
  else if status = 405 then Error.MethodNotAllowed
  else if status = 429 then
    Error.RateLimited
      (((findHeader headers "Retry-After").bind headerToStr).bind
        (parseRetryAfter httpDateDur))
  else
    match body with
    | some b =>
      match parseApiErrors b with
      | some apiErrors => Error.Fault status apiErrors
      | none => Error.Http
    | none => Error.Http

/-- Embeds `JobsucheAsync::error_from_status` (`src/async_client.rs`):
identical to the sync version except for the fallback, which is a
`Fault` with the status code and empty error lists. -/
def JobsucheAsync.error_from_status
    (parseApiErrors : String → Option ApiErrors)
    (httpDateDur : String → Option Nat) (status : Nat)
    (headers : List (String × String)) (body : Option String) : Error :=
  if status = 401 then Error.Unauthorized
  else if status = 403 then Error.Forbidden
  else if status = 404 then Error.NotFound
  else if status = 405 then Error.MethodNotAllowed
  else if status = 429 then
    Error.RateLimited
      (((findHeader headers "Retry-After").bind headerToStr).bind
        (parseRetryAfter httpDateDur))
  else
    match body with
    | some b =>
      match parseApiErrors b with
      | some apiErrors => Error.Fault status apiErrors
      | none => Error.Fault status ⟨[], []⟩
    | none => Error.Fault status ⟨[], []⟩

/-- C4: every 429 outcome classifies as `RateLimited`; `retry_after` is
the `Retry-After` header parsed first as integer seconds (header `"60"`
gives `some 60`), then as an HTTP date via the environment-supplied
duration-from-now function; it is absent when the header is missing or
neither parse succeeds. -/
theorem c4_rate_limited (parse : String → Option ApiErrors)
    (dateF : String → Option Nat) (headers : List (String × String))
    (body : Option String) :
    (∃ ra, Jobsuche.error_from_status parse dateF 429 headers body =
      Error.RateLimited ra) ∧
    (∀ s n, findHeader headers "Retry-After" = some s →
      headerToStr s = some s → parseU64 s = some n →
      Jobsuche.error_from_status parse dateF 429 headers body =
        Error.RateLimited (some n)) ∧
    (∀ s, findHeader headers "Retry-After" = some s →
      headerToStr s = some s → parseU64 s = none →
      Jobsuche.error_from_status parse dateF 429 headers body =
        Error.RateLimited (dateF s)) ∧
    (findHeader headers "Retry-After" = none →
      Jobsuche.error_from_status parse dateF 429 headers body =
        Error.RateLimited none) ∧
    Jobsuche.error_from_status parse dateF 429 [("Retry-After", "60")] body =
      Error.RateLimited (some 60) := by
  have hred : Jobsuche.error_from_status parse dateF 429 headers body =
      Error.RateLimited
        (((findHeader headers "Retry-After").bind headerToStr).bind
          (parseRetryAfter dateF)) := rfl
  refine ⟨⟨_, hred⟩, ?_, ?_, ?_, ?_⟩
  · intro s n hfind hstr hnum
    rw [hred, hfind]
    simp [hstr, parseRetryAfter, hnum]
  · intro s hfind hstr hnum
    rw [hred, hfind]
    simp [hstr, parseRetryAfter, hnum]
  · intro hfind
    rw [hred, hfind]
    rfl
  · rfl

/-- Witness for C4: concrete 429 outcomes with and without `Retry-After`. -/
theorem c4_rate_limited_witness :
    Jobsuche.error_from_status (fun _ => none) (fun _ => none) 429
        [("Retry-After", "60")] none = Error.RateLimited (some 60) ∧
      Jobsuche.error_from_status (fun _ => none) (fun _ => none) 429 []
        none = Error.RateLimited none :=
  ⟨(c4_rate_limited (fun _ => none) (fun _ => none) [("Retry-After", "60")]
      none).2.2.2.2,
    (c4_rate_limited (fun _ => none) (fun _ => none) [] none).2.2.2.1 rfl⟩

/-- C5 counterexample: the claim as stated is false for the sync client.
On a 500 with a body that does not parse as `ApiErrors` (here the plain
text `"Internal Server Error"`, on which any faithful model of
`serde_json::from_str::<ApiErrors>` returns `none`), the sync
`error_from_status` falls back to the generic `Error::Http` from
`error_for_status`, not to a `ServerFault` with an empty message list —
exactly what the crate's own `test_500_server_error_plain_text` test
asserts. -/
theorem c5_counterexample :
    Jobsuche.error_from_status (fun _ => none) (fun _ => none) 500 []
        (some "Internal Server Error") = Error.Http ∧
      Error.Http ≠ Error.Fault 500 ⟨[], []⟩ :=
  ⟨rfl, by decide⟩

/-- C5 (amended): for every non-special status, a body parsing as
`ApiErrors` yields `Fault` with the parsed messages and the preserved
status in both clients; an unparseable body yields `Fault` with empty
messages and the preserved status in the async client, but the generic
`Http` error in the sync client. -/
theorem c5_server_fault (parse : String → Option ApiErrors)
    (dateF : String → Option Nat) (status : Nat)
    (headers : List (String × String)) (body : String) (errs : ApiErrors)
    (h1 : status ≠ 401) (h2 : status ≠ 403) (h3 : status ≠ 404)
    (h4 : status ≠ 405) (h5 : status ≠ 429) :
    (parse body = some errs →
      Jobsuche.error_from_status parse dateF status headers (some body) =
          Error.Fault status errs ∧
        JobsucheAsync.error_from_status parse dateF status headers
          (some body) = Error.Fault status errs) ∧
    (parse body = none →
      Jobsuche.error_from_status parse dateF status headers (some body) =
          Error.Http ∧
        JobsucheAsync.error_from_status parse dateF status headers
          (some body) = Error.Fault status ⟨[], []⟩) := by
  constructor
  · intro hp
    constructor
    · simp [Jobsuche.error_from_status, h1, h2, h3, h4, h5, hp]
    · simp [JobsucheAsync.error_from_status, h1, h2, h3, h4, h5, hp]
  · intro hp
    constructor
    · simp [Jobsuche.error_from_status, h1, h2, h3, h4, h5, hp]
    · simp [JobsucheAsync.error_from_status, h1, h2, h3, h4, h5, hp]

/-- Witness for the amended C5 on concrete 500 outcomes: a parseable
structured body and an unparseable plain-text body. -/
theorem c5_server_fault_witness :
    (Jobsuche.error_from_status
        (fun _ => some ⟨["Internal server error"], ["Internal server error"]⟩)
        (fun _ => none) 500 [] (some "{…}") =
        Error.Fault 500 ⟨["Internal server error"], ["Internal server error"]⟩) ∧
      (JobsucheAsync.error_from_status (fun _ => none) (fun _ => none) 500 []
        (some "Internal Server Error") = Error.Fault 500 ⟨[], []⟩) :=
  ⟨((c5_server_fault
        (fun _ => some ⟨["Internal server error"], ["Internal server error"]⟩)
        (fun _ => none) 500 [] "{…}"
        ⟨["Internal server error"], ["Internal server error"]⟩
        (by decide) (by decide) (by decide) (by decide) (by decide)).1 rfl).1,
    ((c5_server_fault (fun _ => none) (fun _ => none) 500 []
        "Internal Server Error" ⟨[], []⟩
        (by decide) (by decide) (by decide) (by decide) (by decide)).2 rfl).2⟩

/-! ## Request executor with retry (`src/sync.rs`, `Jobsuche::get`)

The executor is parameterized by `outcome`, the environment's result for
each attempt number (1-indexed): `outcome i` is what the `i`-th call of
`get_once` returns.  The `backon` exponential backoff iterator built with
`with_max_times(max_retries)` yields exactly `max_retries` delays, so it
is modeled by the count of delays consumed so far.  Sleeping itself has
no observable effect on the result; the model returns the result
together with the number of attempts performed. -/

/-- The relevant fields of `ClientConfig` (`src/sync.rs`); the two
timeouts configure only the HTTP transport and are carried as plain
seconds. -/
structure ClientConfig where
  timeout : Nat
  connect_timeout : Nat
  max_retries : Nat
  retry_enabled : Bool
deriving DecidableEq, Repr

/-- Embeds `ClientConfig::default()`. -/
def ClientConfig.default : ClientConfig :=
  ⟨30, 10, 3, true⟩

/-- The `should_retry` test of `Jobsuche::get`: `matches!(e, Error::Http(_)
| Error::RateLimited { .. } | Error::Fault { code: SERVICE_UNAVAILABLE |
GATEWAY_TIMEOUT, .. })`. -/
def shouldRetry : Error → Bool
  | Error.Http => true
  | Error.RateLimited _ => true
  | Error.Fault code _ => code = 503 || code = 504
  | _ => false

/-- Whether the error is `RateLimited` with a known `retry_after`, which
sleeps the server-dictated duration instead of consuming a backoff delay. -/
def isRateLimitedSome : Error → Bool
  | Error.RateLimited (some _) => true
  | _ => false

/-- The retry loop of `Jobsuche::get`, from a given attempt number and
count of consumed backoff delays.  Returns the surfaced result and the
total number of attempts performed. -/
def getLoop {T : Type} (outcome : Nat → Except Error T) (maxRetries : Nat) :
    (attempt : Nat) → (consumed : Nat) → Except Error T × Nat
  | attempt, consumed =>
    match outcome attempt with
    | Except.ok v => (Except.ok v, attempt)
    | Except.error e =>
      if ¬ shouldRetry e ∨ attempt > maxRetries then (Except.error e, attempt)
      else if isRateLimitedSome e then
        getLoop outcome maxRetries (attempt + 1) consumed
      else if consumed < maxRetries then
        getLoop outcome maxRetries (attempt + 1) (consumed + 1)
      else (Except.error e, attempt)
termination_by attempt _ => maxRetries + 1 - attempt
decreasing_by all_goals omega

/-- Embeds `Jobsuche::get` (`src/sync.rs`): with retries disabled a
single `get_once`; otherwise the retry loop starting at attempt 1 with
no backoff delay consumed. -/
def Jobsuche.get {T : Type} (config : ClientConfig)
    (outcome : Nat → Except Error T) : Except Error T × Nat :=
  if ¬ config.retry_enabled then (outcome 1, 1)
  else getLoop outcome config.max_retries 1 0

/-- The loop never reports fewer attempts than it started with. -/
theorem getLoop_attempts_ge {T : Type} (outcome : Nat → Except Error T)
    (maxRetries : Nat) :
    ∀ attempt consumed,
      attempt ≤ (getLoop outcome maxRetries attempt consumed).2 := by
  intro attempt consumed
  induction attempt, consumed using getLoop.induct outcome maxRetries with
  | case1 a c v h =>
    rw [getLoop, h]
  | case2 a c e h hstop =>
    rw [getLoop, h]
    simp only [if_pos hstop]
    exact le_rfl
  | case3 a c e h hstop hrl ih =>
    rw [getLoop, h]
    simp only [if_neg hstop, if_pos hrl]
    omega
  | case4 a c e h hstop hrl hcons ih =>
    rw [getLoop, h]
    simp only [if_neg hstop, if_neg hrl, if_pos hcons]
    omega
  | case5 a c e h hstop hrl hcons =>
    rw [getLoop, h]
    simp only [if_neg hstop, if_neg hrl, if_neg hcons]
    exact le_rfl

/-- The loop performs at most `maxRetries + 1` attempts. -/
theorem getLoop_attempts_le {T : Type} (outcome : Nat → Except Error T)
    (maxRetries : Nat) :
    ∀ attempt consumed, attempt ≤ maxRetries + 1 →
      (getLoop outcome maxRetries attempt consumed).2 ≤ maxRetries + 1 := by
  intro attempt consumed
  induction attempt, consumed using getLoop.induct outcome maxRetries with
  | case1 a c v h =>
    intro ha
    rw [getLoop, h]
    exact ha
  | case2 a c e h hstop =>
    intro ha
    rw [getLoop, h]
    simp only [if_pos hstop]
    exact ha
  | case3 a c e h hstop hrl ih =>
    intro ha
    rw [getLoop, h]
    simp only [if_neg hstop, if_pos hrl]
    push_neg at hstop
    exact ih (by omega)
  | case4 a c e h hstop hrl hcons ih =>
    intro ha
    rw [getLoop, h]
    simp only [if_neg hstop, if_neg hrl, if_pos hcons]
    push_neg at hstop
    exact ih (by omega)
  | case5 a c e h hstop hrl hcons =>
    intro ha
    rw [getLoop, h]
    simp only [if_neg hstop, if_neg hrl, if_neg hcons]
    exact ha

/-- If every attempt fails with a retryable error, the loop exhausts all
attempts and surfaces the last error unchanged. -/
theorem getLoop_exhaust {T : Type} (outcome : Nat → Except Error T)
    (maxRetries : Nat) (errs : Nat → Error)
    (hout : ∀ i, outcome i = Except.error (errs i))
    (hretry : ∀ i, shouldRetry (errs i) = true) :
    ∀ attempt consumed, attempt ≤ maxRetries + 1 → consumed + 1 ≤ attempt →
      getLoop outcome maxRetries attempt consumed =
        (Except.error (errs (maxRetries + 1)), maxRetries + 1) := by
  intro attempt consumed
  induction attempt, consumed using getLoop.induct outcome maxRetries with
  | case1 a c v h =>
    intro _ _
    rw [hout a] at h
    exact absurd h (by simp)
  | case2 a c e h hstop =>
    intro ha hc
    rw [hout a] at h
    have he : e = errs a := by
      injection h with h'
      exact h'.symm
    subst he
    have ha' : a = maxRetries + 1 := by
      rcases hstop with h1 | h2
      · exact absurd (hretry a) h1
      · omega
    subst ha'
    rw [getLoop, hout]
    simp only [if_pos hstop]
  | case3 a c e h hstop hrl ih =>
    intro ha hc
    obtain ⟨h1, h2⟩ := not_or.mp hstop
    rw [getLoop]
    simp only [h, if_neg hstop, if_pos hrl]
    exact ih (by omega) (by omega)
  | case4 a c e h hstop hrl hcons ih =>
    intro ha hc
    obtain ⟨h1, h2⟩ := not_or.mp hstop
    rw [getLoop]
    simp only [h, if_neg hstop, if_neg hrl, if_pos hcons]
    exact ih (by omega) (by omega)
  | case5 a c e h hstop hrl hcons =>
    intro ha hc
    obtain ⟨h1, h2⟩ := not_or.mp hstop
    omega

/-- Every attempt before the final one failed with a retryable error. -/
theorem getLoop_trace {T : Type} (outcome : Nat → Except Error T)
    (maxRetries : Nat) :
    ∀ attempt consumed i, attempt ≤ i →
      i < (getLoop outcome maxRetries attempt consumed).2 →
      ∃ e, outcome i = Except.error e ∧ shouldRetry e = true := by
  intro attempt consumed
  induction attempt, consumed using getLoop.induct outcome maxRetries with
  | case1 a c v h =>
    intro i hai hi
    rw [getLoop] at hi
    simp only [h] at hi
    omega
  | case2 a c e h hstop =>
    intro i hai hi
    rw [getLoop] at hi
    simp only [h, if_pos hstop] at hi
    omega
  | case3 a c e h hstop hrl ih =>
    intro i hai hi
    rw [getLoop] at hi
    simp only [h, if_neg hstop, if_pos hrl] at hi
    obtain ⟨h1, h2⟩ := not_or.mp hstop
    rcases Nat.eq_or_lt_of_le hai with rfl | hlt
    · exact ⟨e, h, by simpa using h1⟩
    · exact ih i hlt hi
  | case4 a c e h hstop hrl hcons ih =>
    intro i hai hi
    rw [getLoop] at hi
    simp only [h, if_neg hstop, if_neg hrl, if_pos hcons] at hi
    obtain ⟨h1, h2⟩ := not_or.mp hstop
    rcases Nat.eq_or_lt_of_le hai with rfl | hlt
    · exact ⟨e, h, by simpa using h1⟩
    · exact ih i hlt hi
  | case5 a c e h hstop hrl hcons =>
    intro i hai hi
    rw [getLoop] at hi
    simp only [h, if_neg hstop, if_neg hrl, if_neg hcons] at hi
    omega

/-- C3: the executor retries only transport (`Http`), `RateLimited`, and
`Fault` 503/504 errors; every other first error is returned with zero
additional attempts regardless of configuration; with retries disabled
the first outcome of any kind is terminal; if every attempt fails with a
retryable error the loop exhausts `max_retries + 1` attempts and
surfaces the last error unchanged; attempts never exceed
`max_retries + 1`; and a first retryable error with retries enabled and
a positive budget does cause a second attempt. -/
theorem c3_retry_policy {T : Type} (config : ClientConfig)
    (outcome : Nat → Except Error T) :
    (∀ e, outcome 1 = Except.error e → shouldRetry e = false →
      Jobsuche.get config outcome = (Except.error e, 1)) ∧
    (config.retry_enabled = false →
      Jobsuche.get config outcome = (outcome 1, 1)) ∧
    (∀ errs : Nat → Error, config.retry_enabled = true →
      (∀ i, outcome i = Except.error (errs i)) →
      (∀ i, shouldRetry (errs i) = true) →
      Jobsuche.get config outcome =
        (Except.error (errs (config.max_retries + 1)),
          config.max_retries + 1)) ∧
    (∀ i, 1 ≤ i → i < (Jobsuche.get config outcome).2 →
      ∃ e, outcome i = Except.error e ∧ shouldRetry e = true) ∧
    ((Jobsuche.get config outcome).2 ≤ config.max_retries + 1) ∧
    (∀ e, config.retry_enabled = true → 1 ≤ config.max_retries →
      outcome 1 = Except.error e → shouldRetry e = true →
      2 ≤ (Jobsuche.get config outcome).2) := by
  refine ⟨?_, ?_, ?_, ?_, ?_, ?_⟩
  · intro e h hr
    by_cases hre : config.retry_enabled
    · have hcond : ¬shouldRetry e = true ∨ 1 > config.max_retries :=
        Or.inl (by simp [hr])
      rw [Jobsuche.get, if_neg (by simpa using hre), getLoop]
      simp only [h, if_pos hcond]
    · rw [Jobsuche.get, if_pos (by simpa using hre), h]
  · intro hre
    rw [Jobsuche.get, if_pos (by simp [hre])]
  · intro errs hre hout hretry
    rw [Jobsuche.get, if_neg (by simp [hre])]
    exact getLoop_exhaust outcome config.max_retries errs hout hretry 1 0
      (by omega) (by omega)
  · intro i hi1 hi2
    by_cases hre : config.retry_enabled
    · rw [Jobsuche.get, if_neg (by simpa using hre)] at hi2
      exact getLoop_trace outcome config.max_retries 1 0 i hi1 hi2
    · rw [Jobsuche.get, if_pos (by simpa using hre)] at hi2
      omega
  · by_cases hre : config.retry_enabled
    · rw [Jobsuche.get, if_neg (by simpa using hre)]
      exact getLoop_attempts_le outcome config.max_retries 1 0 (by omega)
    · rw [Jobsuche.get, if_pos (by simpa using hre)]
      omega
  · intro e hre hmax h hr
    have hcond : ¬(¬shouldRetry e = true ∨ 1 > config.max_retries) := by
      push_neg
      exact ⟨hr, by omega⟩
    rw [Jobsuche.get, if_neg (by simp [hre]), getLoop]
    simp only [h, if_neg hcond]
    by_cases hrl : isRateLimitedSome e = true
    · simp only [if_pos hrl]
      exact getLoop_attempts_ge outcome config.max_retries 2 0
    · simp only [if_neg hrl, if_pos (show 0 < config.max_retries by omega)]
      exact getLoop_attempts_ge outcome config.max_retries 2 1

/-- Witness for C3: a 404 is surfaced with no additional attempt under
the default configuration; with retries disabled a transport error is
terminal after one attempt; persistent rate limiting exhausts all
`max_retries + 1` attempts and surfaces the last error unchanged. -/
theorem c3_retry_policy_witness :
    Jobsuche.get ClientConfig.default
        (fun _ => (Except.error Error.NotFound : Except Error Unit)) =
      (Except.error Error.NotFound, 1) ∧
    Jobsuche.get ⟨30, 10, 3, false⟩
        (fun _ => (Except.error Error.Http : Except Error Unit)) =
      (Except.error Error.Http, 1) ∧
    Jobsuche.get ClientConfig.default
        (fun _ =>
          (Except.error (Error.RateLimited none) : Except Error Unit)) =
      (Except.error (Error.RateLimited none), 4) :=
  ⟨(c3_retry_policy ClientConfig.default _).1 Error.NotFound rfl rfl,
    (c3_retry_policy ⟨30, 10, 3, false⟩ _).2.1 rfl,
    (c3_retry_policy ClientConfig.default _).2.2.1
      (fun _ => Error.RateLimited none) rfl (fun _ => rfl) (fun _ => rfl)⟩

/-! ## Lazy pagination (`src/pagination.rs`)

`JobIterator` holds a cloned client plus search options; its observable
interaction with the backend is `self.client.search().list(page_options)`
where `page_options` differs between fetches only in the `page` number
(the `size` is pinned to the iterator's `page_size`).  The backend is
therefore modeled as a function from the requested page number to the
`list` result.  Items are a type parameter `α` (a `JobListing` is opaque
data to the engine).  To account for fetches, every operation also
returns the list of page numbers actually requested from the backend. -/

/-- Embeds `JobSearchResponse` (`src/rep.rs`) as the pagination engine
sees it; the opaque `facetten` JSON blob is omitted (never read by the
engine). -/
structure JobSearchResponse (α : Type) where
  stellenangebote : List α
  max_ergebnisse : Option Nat
  page : Option Nat
  size : Option Nat
deriving DecidableEq, Repr

/-- Embeds the mutable state of `JobIterator` (`src/pagination.rs`);
`client` and `options` are replaced by the backend parameter and the
pinned `page_size`. -/
structure JobIterator (α : Type) where
  current_page : Nat
  page_size : Nat
  current_page_jobs : List α
  current_index : Nat
  finished : Bool
  max_results : Option Nat
  total_yielded : Nat
deriving DecidableEq, Repr

/-- Embeds `JobIterator::new`: `page_size` is `options.size().unwrap_or(50)`. -/
def JobIterator.new (α : Type) (page_size : Nat) : JobIterator α :=
  ⟨0, page_size, [], 0, false, none, 0⟩

/-- Embeds `JobIterator::fetch_next_page`.  Returns the Rust function's
`Result<bool>`, the updated state, and the pages requested from the
backend during the call (`[]` or one page).  Note that on a backend
error the `?` operator returns with `current_page` already advanced and
`finished` untouched. -/
def JobIterator.fetch_next_page {α : Type}
    (backend : Nat → Except Error (JobSearchResponse α))
    (s : JobIterator α) :
    Except Error Bool × JobIterator α × List Nat :=
  if s.finished then (Except.ok false, s, [])
  else
    let s1 : JobIterator α := { s with current_page := s.current_page + 1 }
    if 1000 < s1.current_page then
      (Except.ok false, { s1 with finished := true }, [])
    else
      match backend s1.current_page with
      | Except.error e => (Except.error e, s1, [s1.current_page])
      | Except.ok response =>
        let s2 : JobIterator α :=
          if s1.current_page = 1 then
            { s1 with max_results := response.max_ergebnisse }
          else s1
        let jobs_count := response.stellenangebote.length
        let s3 : JobIterator α :=
          { s2 with current_page_jobs := response.stellenangebote,
                    current_index := 0 }
        let s4 : JobIterator α :=
          if jobs_count < s3.page_size then { s3 with finished := true }
          else s3
        let s5 : JobIterator α :=
          match s4.max_results with
          | some max =>
            if max ≤ s4.total_yielded then { s4 with finished := true }
            else s4
          | none => s4
        (Except.ok (decide (0 < jobs_count)), s5, [s1.current_page])

/-- Worker for `JobIterator.next`, structurally recursive on fuel.  The
Rust `loop` re-enters at most once per call (a fetch that returns
`Ok(true)` leaves a non-empty buffer, so the next round yields), hence
fuel 2 realizes the loop exactly; `nextAux_fuel` below proves fuel
irrelevance beyond 2. -/
def JobIterator.nextAux {α : Type}
    (backend : Nat → Except Error (JobSearchResponse α)) :
    Nat → JobIterator α →
      Option (Except Error α) × JobIterator α × List Nat
  | 0, s => (none, s, [])
  | fuel + 1, s =>
    if h : s.current_index < s.current_page_jobs.length then
      (some (Except.ok (s.current_page_jobs.get ⟨s.current_index, h⟩)),
        { s with current_index := s.current_index + 1,
                 total_yielded := s.total_yielded + 1 }, [])
    else if s.finished then (none, s, [])
    else
      match JobIterator.fetch_next_page backend s with
      | (Except.ok true, s', log) =>
        let r := JobIterator.nextAux backend fuel s'
        (r.1, r.2.1, log ++ r.2.2)
      | (Except.ok false, s', log) => (none, s', log)
      | (Except.error e, s', log) => (some (Except.error e), s', log)

/-- Embeds `Iterator::next` for `JobIterator` (`src/pagination.rs`). -/
def JobIterator.next {α : Type}
    (backend : Nat → Except Error (JobSearchResponse α))
    (s : JobIterator α) :
    Option (Except Error α) × JobIterator α × List Nat :=
  JobIterator.nextAux backend 2 s

/-- Calling `next` repeatedly `n` times: the list of its return values,
the final state, and all pages requested from the backend, in order. -/
def runIter {α : Type}
    (backend : Nat → Except Error (JobSearchResponse α)) :
    Nat → JobIterator α →
      List (Option (Except Error α)) × JobIterator α × List Nat
  | 0, s => ([], s, [])
  | n + 1, s =>
    let r := JobIterator.next backend s
    let rest := runIter backend n r.2.1
    (r.1 :: rest.1, rest.2.1, r.2.2 ++ rest.2.2)

/-- A finished iterator never calls the backend again: `fetch_next_page`
returns immediately. -/
theorem fetch_finished {α : Type}
    (backend : Nat → Except Error (JobSearchResponse α))
    (t : JobIterator α) (h : t.finished = true) :
    JobIterator.fetch_next_page backend t = (Except.ok false, t, []) := by
  simp [JobIterator.fetch_next_page, h]

/-- A fetch returning `Ok(true)` leaves the cursor at the start of a
non-empty buffer. -/
theorem fetch_ok_true_buffer {α : Type}
    (backend : Nat → Except Error (JobSearchResponse α))
    (s s' : JobIterator α) (log : List Nat)
    (h : JobIterator.fetch_next_page backend s = (Except.ok true, s', log)) :
    s'.current_index = 0 ∧ 0 < s'.current_page_jobs.length := by
  simp only [JobIterator.fetch_next_page] at h
  repeat' split at h
  all_goals
    simp only [Prod.mk.injEq, Except.ok.injEq, decide_eq_true_eq,
      Bool.false_eq_true, false_and, reduceCtorEq] at h
  all_goals
    obtain ⟨h1', h2', h3'⟩ := h
  all_goals subst h2'
  all_goals exact ⟨rfl, by simpa using h1'⟩

/-- Whenever the buffer still holds an item, `next` yields it and only
advances the cursor and the yield count, with no backend call; the fuel
argument is irrelevant. -/
theorem nextAux_yield {α : Type}
    (backend : Nat → Except Error (JobSearchResponse α)) (k : Nat)
    (s : JobIterator α) (h : s.current_index < s.current_page_jobs.length) :
    JobIterator.nextAux backend (k + 1) s =
      (some (Except.ok (s.current_page_jobs.get ⟨s.current_index, h⟩)),
        { s with current_index := s.current_index + 1,
                 total_yielded := s.total_yielded + 1 }, []) := by
  rw [JobIterator.nextAux]
  simp only [dif_pos h]

/-- The Rust `loop` in `next` re-enters at most once: any fuel of at
least 2 computes the same result, so `next`'s fuel of 2 is faithful. -/
theorem nextAux_fuel {α : Type}
    (backend : Nat → Except Error (JobSearchResponse α)) (n : Nat)
    (s : JobIterator α) :
    JobIterator.nextAux backend (n + 2) s = JobIterator.nextAux backend 2 s := by
  by_cases hy : s.current_index < s.current_page_jobs.length
  · rw [show n + 2 = (n + 1) + 1 by omega, nextAux_yield backend (n + 1) s hy,
      show (2 : Nat) = 1 + 1 by omega, nextAux_yield backend 1 s hy]
  · rw [show n + 2 = (n + 1) + 1 by omega, JobIterator.nextAux,
      show (2 : Nat) = 1 + 1 by omega, JobIterator.nextAux]
    simp only [dif_neg hy]
    by_cases hfin : s.finished
    · simp [hfin]
    · simp only [hfin, if_false, Bool.false_eq_true]
      cases hfetch : JobIterator.fetch_next_page backend s with
      | mk res rest =>
        obtain ⟨s2, log2⟩ := rest
        cases res with
        | ok b =>
          cases b with
          | true =>
            have hb := fetch_ok_true_buffer backend s s2 log2 hfetch
            have hlt : s2.current_index < s2.current_page_jobs.length := by
              omega
            have hy1 : JobIterator.nextAux backend (n + 1) s2 =
                (some (Except.ok
                    (s2.current_page_jobs.get ⟨s2.current_index, hlt⟩)),
                  { s2 with current_index := s2.current_index + 1,
                            total_yielded := s2.total_yielded + 1 }, []) :=
              nextAux_yield backend n s2 hlt
            have hy2 : JobIterator.nextAux backend 1 s2 =
                (some (Except.ok
                    (s2.current_page_jobs.get ⟨s2.current_index, hlt⟩)),
                  { s2 with current_index := s2.current_index + 1,
                            total_yielded := s2.total_yielded + 1 }, []) :=
              nextAux_yield backend 0 s2 hlt
            simp only [hy1, hy2]
          | false => rfl
        | error e => rfl

/-- `next` on a finished iterator performs no fetch and stays finished. -/
theorem next_finished {α : Type}
    (backend : Nat → Except Error (JobSearchResponse α))
    (t : JobIterator α) (h : t.finished = true) :
    (JobIterator.next backend t).2.2 = [] ∧
      (JobIterator.next backend t).2.1.finished = true := by
  rw [JobIterator.next, show (2 : Nat) = 1 + 1 by omega, JobIterator.nextAux]
  by_cases hy : t.current_index < t.current_page_jobs.length
  · simp [dif_pos hy, h]
  · simp [dif_neg hy, h]

/-- Once finished, arbitrarily many further `next` calls perform no
fetch and stay finished. -/
theorem runIter_finished {α : Type}
    (backend : Nat → Except Error (JobSearchResponse α)) :
    ∀ (n : Nat) (t : JobIterator α), t.finished = true →
      (runIter backend n t).2.2 = [] ∧
        (runIter backend n t).2.1.finished = true := by
  intro n
  induction n with
  | zero => exact fun t h => ⟨rfl, h⟩
  | succ m ih =>
    intro t h
    obtain ⟨h1, h2⟩ := next_finished backend t h
    obtain ⟨ih1, ih2⟩ := ih (JobIterator.next backend t).2.1 h2
    rw [runIter]
    exact ⟨by simp [h1, ih1], by simpa using ih2⟩

/-- An unfinished iterator below the page ceiling requests exactly one
page from the backend during `fetch_next_page`. -/
theorem fetch_log {α : Type}
    (backend : Nat → Except Error (JobSearchResponse α))
    (s : JobIterator α) (hfin : s.finished = false)
    (hpage : s.current_page + 1 ≤ 1000) :
    (JobIterator.fetch_next_page backend s).2.2 = [s.current_page + 1] := by
  rw [JobIterator.fetch_next_page, if_neg (by simp [hfin])]
  simp only []
  rw [if_neg (by simp; omega)]
  cases backend (s.current_page + 1) with
  | error e => rfl
  | ok response => repeat' split <;> rfl

/-- With an exhausted buffer, an unfinished iterator below the page
ceiling issues exactly one backend fetch on the next `next` call. -/
theorem next_log {α : Type}
    (backend : Nat → Except Error (JobSearchResponse α))
    (s : JobIterator α)
    (hbuf : s.current_page_jobs.length ≤ s.current_index)
    (hfin : s.finished = false) (hpage : s.current_page + 1 ≤ 1000) :
    (JobIterator.next backend s).2.2 = [s.current_page + 1] := by
  have hflog := fetch_log backend s hfin hpage
  rw [JobIterator.next, show (2 : Nat) = 1 + 1 by omega, JobIterator.nextAux,
    dif_neg (by omega), if_neg (by simp [hfin])]
  cases hfetch : JobIterator.fetch_next_page backend s with
  | mk res rest =>
    obtain ⟨s2, log2⟩ := rest
    rw [hfetch] at hflog
    simp only at hflog
    cases res with
    | ok b =>
      cases b with
      | true =>
        have hb := fetch_ok_true_buffer backend s s2 log2 hfetch
        have hlt : s2.current_index < s2.current_page_jobs.length := by omega
        have hy1 : JobIterator.nextAux backend 1 s2 =
            (some (Except.ok
                (s2.current_page_jobs.get ⟨s2.current_index, hlt⟩)),
              { s2 with current_index := s2.current_index + 1,
                        total_yielded := s2.total_yielded + 1 }, []) :=
          nextAux_yield backend 0 s2 hlt
        simp [hy1, hflog]
      | false => simpa using hflog
    | error e => simpa using hflog

/-- When the fetch of the next page fails, `next` yields the error; the
`?` operator leaves `finished` untouched and `current_page` advanced
past the failed page. -/
theorem next_fetch_error {α : Type}
    (backend : Nat → Except Error (JobSearchResponse α))
    (s : JobIterator α) (e : Error)
    (hbuf : s.current_page_jobs.length ≤ s.current_index)
    (hfin : s.finished = false) (hpage : s.current_page + 1 ≤ 1000)
    (herr : backend (s.current_page + 1) = Except.error e) :
    JobIterator.next backend s =
      (some (Except.error e),
        { s with current_page := s.current_page + 1 },
        [s.current_page + 1]) := by
  have hfetch : JobIterator.fetch_next_page backend s =
      (Except.error e, { s with current_page := s.current_page + 1 },
        [s.current_page + 1]) := by
    rw [JobIterator.fetch_next_page, if_neg (by simp [hfin])]
    simp only []
    rw [if_neg (by simp; omega), herr]
  rw [JobIterator.next, show (2 : Nat) = 1 + 1 by omega, JobIterator.nextAux,
    dif_neg (by omega), if_neg (by simp [hfin]), hfetch]

/-- C1 counterexample: against a backend whose every fetch fails, two
consecutive `next` calls each yield an error and each issue a fetch
(pages 1 and then 2 — the failed page is skipped), and the iterator is
not `finished` after the error was surfaced.  The claim would require
the fetch log `[1]`, a single yielded error followed by `none`, and
`finished = true` after the first error. -/
theorem c1_counterexample :
    (runIter (fun _ => (Except.error Error.NotFound :
          Except Error (JobSearchResponse Nat))) 2
        (JobIterator.new Nat 50)).1 =
      [some (Except.error Error.NotFound),
        some (Except.error Error.NotFound)] ∧
    (runIter (fun _ => (Except.error Error.NotFound :
          Except Error (JobSearchResponse Nat))) 2
        (JobIterator.new Nat 50)).2.2 = [1, 2] ∧
    (runIter (fun _ => (Except.error Error.NotFound :
          Except Error (JobSearchResponse Nat))) 1
        (JobIterator.new Nat 50)).2.1.finished = false :=
  ⟨rfl, rfl, rfl⟩

/-- C1 (amended): a page-fetch error is yielded to the caller, but the
iterator does not transition to `Finished`: `finished` stays `false`,
`current_page` stays advanced past the failed page, and the following
`next` call issues a fetch for the next page number (skip-and-continue,
not fail-fast). -/
theorem c1_error_continues {α : Type}
    (backend : Nat → Except Error (JobSearchResponse α))
    (s : JobIterator α) (e : Error)
    (hbuf : s.current_page_jobs.length ≤ s.current_index)
    (hfin : s.finished = false) (hpage : s.current_page + 1 ≤ 1000)
    (herr : backend (s.current_page + 1) = Except.error e) :
    JobIterator.next backend s =
      (some (Except.error e),
        { s with current_page := s.current_page + 1 },
        [s.current_page + 1]) ∧
    ({ s with current_page := s.current_page + 1 } :
      JobIterator α).finished = false ∧
    (s.current_page + 2 ≤ 1000 →
      (JobIterator.next backend
          { s with current_page := s.current_page + 1 }).2.2 =
        [s.current_page + 2]) := by
  refine ⟨next_fetch_error backend s e hbuf hfin hpage herr, by simpa, ?_⟩
  intro hpage2
  have := next_log backend
    ({ s with current_page := s.current_page + 1 } : JobIterator α)
    (by simpa using hbuf) (by simpa using hfin) (by simpa using hpage2)
  simpa using this

/-- Witness for the amended C1: the concrete failing backend, starting
from a fresh iterator. -/
theorem c1_error_continues_witness :
    JobIterator.next
        (fun _ => (Except.error Error.NotFound :
          Except Error (JobSearchResponse Nat)))
        (JobIterator.new Nat 50) =
      (some (Except.error Error.NotFound),
        { JobIterator.new Nat 50 with current_page := 1 }, [1]) ∧
    ({ JobIterator.new Nat 50 with current_page := 1 } :
      JobIterator Nat).finished = false ∧
    (0 + 2 ≤ 1000 →
      (JobIterator.next
          (fun _ => (Except.error Error.NotFound :
            Except Error (JobSearchResponse Nat)))
          { JobIterator.new Nat 50 with current_page := 1 }).2.2 = [0 + 2]) :=
  c1_error_continues
    (fun _ => (Except.error Error.NotFound :
      Except Error (JobSearchResponse Nat)))
    (JobIterator.new Nat 50) Error.NotFound (by decide) (by decide)
    (by decide) rfl

/-- Characterization of a successful `fetch_next_page`: the page counter
advances, the buffer is replaced and rewound, `max_results` is captured
from the first page, and `finished` is set by the short-page heuristic
or by the total-reached check (which uses the yield count from *before*
this page's items are consumed). -/
theorem fetch_eq_of_ok {α : Type}
    (backend : Nat → Except Error (JobSearchResponse α))
    (s : JobIterator α) (r : JobSearchResponse α)
    (hfin : s.finished = false) (hpage : s.current_page + 1 ≤ 1000)
    (hok : backend (s.current_page + 1) = Except.ok r) :
    JobIterator.fetch_next_page backend s =
      (Except.ok (decide (0 < r.stellenangebote.length)),
        { s with
          current_page := s.current_page + 1,
          current_page_jobs := r.stellenangebote,
          current_index := 0,
          max_results :=
            if s.current_page + 1 = 1 then r.max_ergebnisse
            else s.max_results,
          finished :=
            (decide (r.stellenangebote.length < s.page_size) ||
              match (if s.current_page + 1 = 1 then r.max_ergebnisse
                  else s.max_results) with
                | some m => decide (m ≤ s.total_yielded)
                | none => false) },
        [s.current_page + 1]) := by
  rw [JobIterator.fetch_next_page, if_neg (by simp [hfin])]
  simp only []
  rw [if_neg (by simp; omega), hok]
  simp only []
  repeat' split
  all_goals simp_all

/-- A successful fetch of a page shorter than the page size marks the
iterator finished after at most that one fetch, whatever `next` then
yields. -/
theorem next_small {α : Type}
    (backend : Nat → Except Error (JobSearchResponse α))
    (s : JobIterator α) (r : JobSearchResponse α)
    (hbuf : s.current_page_jobs.length ≤ s.current_index)
    (hfin : s.finished = false) (hpage : s.current_page + 1 ≤ 1000)
    (hok : backend (s.current_page + 1) = Except.ok r)
    (hsmall : r.stellenangebote.length < s.page_size) :
    (JobIterator.next backend s).2.1.finished = true ∧
      (JobIterator.next backend s).2.2 = [s.current_page + 1] := by
  have hfe := fetch_eq_of_ok backend s r hfin hpage hok
  rw [JobIterator.next, show (2 : Nat) = 1 + 1 by omega, JobIterator.nextAux,
    dif_neg (by omega), if_neg (by simp [hfin])]
  cases hfetch : JobIterator.fetch_next_page backend s with
  | mk res rest =>
    obtain ⟨s2, log2⟩ := rest
    rw [hfetch] at hfe
    simp only [Prod.mk.injEq] at hfe
    obtain ⟨he1, he2, he3⟩ := hfe
    subst he1
    subst he3
    have hfin2 : s2.finished = true := by
      rw [he2]
      simp [hsmall]
    by_cases hl : 0 < r.stellenangebote.length
    · rw [decide_eq_true hl]
      have hlt : s2.current_index < s2.current_page_jobs.length := by
        rw [he2]
        simpa using hl
      have hy : JobIterator.nextAux backend 1 s2 =
          (some (Except.ok
              (s2.current_page_jobs.get ⟨s2.current_index, hlt⟩)),
            { s2 with current_index := s2.current_index + 1,
                      total_yielded := s2.total_yielded + 1 }, []) :=
        nextAux_yield backend 0 s2 hlt
      exact ⟨by simp [hy, hfin2], by simp [hy]⟩
    · rw [decide_eq_false (by omega)]
      exact ⟨hfin2, rfl⟩

/-- C2: over a backend serving pages of sizes `[2, 2, 0]` with page size
2 the iterator yields the four items in server order and then `none`,
issuing exactly the three fetches `[1, 2, 3]` and ending finished; and
over any backend whose first page is strictly smaller than the requested
page size, any number of `next` calls issues exactly one fetch. -/
theorem c2_page_sequences :
    ((runIter (fun p =>
          if p = 1 then
            Except.ok (⟨[0, 1], none, none, none⟩ : JobSearchResponse Nat)
          else if p = 2 then Except.ok ⟨[2, 3], none, none, none⟩
          else Except.ok ⟨[], none, none, none⟩) 5
        (JobIterator.new Nat 2)).1 =
      [some (Except.ok 0), some (Except.ok 1), some (Except.ok 2),
        some (Except.ok 3), none] ∧
      (runIter (fun p =>
          if p = 1 then
            Except.ok (⟨[0, 1], none, none, none⟩ : JobSearchResponse Nat)
          else if p = 2 then Except.ok ⟨[2, 3], none, none, none⟩
          else Except.ok ⟨[], none, none, none⟩) 5
        (JobIterator.new Nat 2)).2.2 = [1, 2, 3] ∧
      (runIter (fun p =>
          if p = 1 then
            Except.ok (⟨[0, 1], none, none, none⟩ : JobSearchResponse Nat)
          else if p = 2 then Except.ok ⟨[2, 3], none, none, none⟩
          else Except.ok ⟨[], none, none, none⟩) 5
        (JobIterator.new Nat 2)).2.1.finished = true) ∧
    (∀ (α : Type) (backend : Nat → Except Error (JobSearchResponse α))
      (ps : Nat) (r : JobSearchResponse α),
      backend 1 = Except.ok r → r.stellenangebote.length < ps →
      ∀ n, 1 ≤ n →
        (runIter backend n (JobIterator.new α ps)).2.2 = [1]) := by
  refine ⟨⟨rfl, rfl, rfl⟩, ?_⟩
  intro α backend ps r hok hsmall n hn
  obtain ⟨m, rfl⟩ : ∃ m, n = m + 1 := ⟨n - 1, by omega⟩
  have hns := next_small backend (JobIterator.new α ps) r
    (by simp [JobIterator.new]) rfl (by simp [JobIterator.new])
    (by simpa using hok) (by simpa using hsmall)
  obtain ⟨rf1, rf2⟩ := runIter_finished backend m _ hns.1
  rw [runIter]
  simp only []
  rw [rf1]
  simpa using hns.2

/-- Witness for C2 at a concrete one-short-page backend. -/
theorem c2_page_sequences_witness :
    (runIter (fun _ =>
        Except.ok (⟨[9], none, none, none⟩ : JobSearchResponse Nat)) 3
      (JobIterator.new Nat 2)).2.2 = [1] :=
  c2_page_sequences.2 Nat _ 2 ⟨[9], none, none, none⟩ rfl (by decide) 3
    (by decide)

/-- Characterization of a failing `fetch_next_page` below the ceiling:
the error propagates via `?` with the page counter already advanced and
`finished` untouched. -/
theorem fetch_eq_of_error {α : Type}
    (backend : Nat → Except Error (JobSearchResponse α))
    (s : JobIterator α) (e : Error)
    (hfin : s.finished = false) (hpage : s.current_page + 1 ≤ 1000)
    (herr : backend (s.current_page + 1) = Except.error e) :
    JobIterator.fetch_next_page backend s =
      (Except.error e, { s with current_page := s.current_page + 1 },
        [s.current_page + 1]) := by
  rw [JobIterator.fetch_next_page, if_neg (by simp [hfin])]
  simp only []
  rw [if_neg (by simp; omega), herr]

/-- Characterization of `fetch_next_page` at the 1000-page safety
ceiling: no backend call, `finished` forced. -/
theorem fetch_eq_of_ceiling {α : Type}
    (backend : Nat → Except Error (JobSearchResponse α))
    (s : JobIterator α)
    (hfin : s.finished = false) (hpage : 1000 < s.current_page + 1) :
    JobIterator.fetch_next_page backend s =
      (Except.ok false,
        { s with current_page := s.current_page + 1, finished := true },
        []) := by
  rw [JobIterator.fetch_next_page, if_neg (by simp [hfin])]
  simp only []
  rw [if_pos (by simpa using hpage)]

/-- Invariant tying an iterator state to the pages fetched so far: the
fetch log is exactly `[1, …, current_page]` while below the ceiling, and
is capped at `[1, …, 1000]` with the iterator finished beyond it. -/
def FetchLogInv {α : Type} (s : JobIterator α) (log : List Nat) : Prop :=
  (s.current_page ≤ 1000 ∧ log = List.range' 1 s.current_page) ∨
    (1000 < s.current_page ∧ log = List.range' 1 1000 ∧ s.finished = true)

/-- `fetch_next_page` preserves the fetch-log invariant. -/
theorem fetch_inv {α : Type}
    (backend : Nat → Except Error (JobSearchResponse α))
    (s : JobIterator α) (log : List Nat) (hinv : FetchLogInv s log) :
    FetchLogInv (JobIterator.fetch_next_page backend s).2.1
      (log ++ (JobIterator.fetch_next_page backend s).2.2) := by
  by_cases hfin : s.finished = true
  · rw [fetch_finished backend s hfin]
    simpa using hinv
  · have hfin' : s.finished = false := by simpa using hfin
    have hcp : s.current_page ≤ 1000 ∧ log = List.range' 1 s.current_page := by
      rcases hinv with h | h
      · exact h
      · exact absurd h.2.2 hfin
    by_cases hp : s.current_page + 1 ≤ 1000
    · have hlog : log ++ [s.current_page + 1] =
          List.range' 1 (s.current_page + 1) := by
        rw [hcp.2, List.range'_concat]
        simp [Nat.add_comm]
      cases hb : backend (s.current_page + 1) with
      | error e =>
        rw [fetch_eq_of_error backend s e hfin' hp hb]
        exact Or.inl ⟨by simpa using hp, by simpa using hlog⟩
      | ok r =>
        rw [fetch_eq_of_ok backend s r hfin' hp hb]
        exact Or.inl ⟨by simpa using hp, by simpa using hlog⟩
    · have hcp1000 : s.current_page = 1000 := by omega
      rw [fetch_eq_of_ceiling backend s hfin' (by omega)]
      refine Or.inr ⟨by simp; omega, ?_, by simp⟩
      simpa [hcp1000] using hcp.2

/-- `next` preserves the fetch-log invariant. -/
theorem next_inv {α : Type}
    (backend : Nat → Except Error (JobSearchResponse α))
    (s : JobIterator α) (log : List Nat) (hinv : FetchLogInv s log) :
    FetchLogInv (JobIterator.next backend s).2.1
      (log ++ (JobIterator.next backend s).2.2) := by
  rw [JobIterator.next, show (2 : Nat) = 1 + 1 by omega, JobIterator.nextAux]
  by_cases hy : s.current_index < s.current_page_jobs.length
  · rw [dif_pos hy]
    simpa [FetchLogInv] using hinv
  · rw [dif_neg hy]
    by_cases hfin : s.finished = true
    · rw [if_pos hfin]
      simpa using hinv
    · rw [if_neg hfin]
      have hf := fetch_inv backend s log hinv
      cases hfetch : JobIterator.fetch_next_page backend s with
      | mk res rest =>
        obtain ⟨s2, log2⟩ := rest
        rw [hfetch] at hf
        simp only at hf
        cases res with
        | ok b =>
          cases b with
          | true =>
            have hbuf := fetch_ok_true_buffer backend s s2 log2 hfetch
            have hlt : s2.current_index < s2.current_page_jobs.length := by
              omega
            have hy2 : JobIterator.nextAux backend 1 s2 =
                (some (Except.ok
                    (s2.current_page_jobs.get ⟨s2.current_index, hlt⟩)),
                  { s2 with current_index := s2.current_index + 1,
                            total_yielded := s2.total_yielded + 1 }, []) :=
              nextAux_yield backend 0 s2 hlt
            simp only [hy2]
            simpa [FetchLogInv] using hf
          | false => simpa using hf
        | error e => simpa using hf

/-- Repeated `next` calls preserve the fetch-log invariant. -/
theorem runIter_inv {α : Type}
    (backend : Nat → Except Error (JobSearchResponse α)) :
    ∀ (n : Nat) (s : JobIterator α) (log : List Nat),
      FetchLogInv s log →
      FetchLogInv (runIter backend n s).2.1
        (log ++ (runIter backend n s).2.2) := by
  intro n
  induction n with
  | zero =>
    intro s log h
    simpa [runIter] using h
  | succ m ih =>
    intro s log h
    have h1 := next_inv backend s log h
    have h2 := ih (JobIterator.next backend s).2.1
      (log ++ (JobIterator.next backend s).2.2) h1
    rw [runIter]
    simpa [List.append_assoc] using h2

/-- C6: whatever the backend does — errors, always-full pages,
inconsistent metadata — any number of `next` calls issues at most 1000
backend fetches, every fetched page number lies in `1..1000`, and a
`fetch_next_page` on a state at or beyond page 1000 calls the backend
not at all and forces `finished`. -/
theorem c6_safety_ceiling {α : Type}
    (backend : Nat → Except Error (JobSearchResponse α)) (ps n : Nat) :
    (runIter backend n (JobIterator.new α ps)).2.2.length ≤ 1000 ∧
    (∀ p ∈ (runIter backend n (JobIterator.new α ps)).2.2,
      1 ≤ p ∧ p ≤ 1000) ∧
    (∀ t : JobIterator α, 1000 ≤ t.current_page →
      (JobIterator.fetch_next_page backend t).2.2 = [] ∧
        (JobIterator.fetch_next_page backend t).2.1.finished = true) := by
  have hinv0 : FetchLogInv (JobIterator.new α ps) ([] : List Nat) :=
    Or.inl ⟨by simp [JobIterator.new], by simp [JobIterator.new]⟩
  have hinv := runIter_inv backend n (JobIterator.new α ps) [] hinv0
  simp only [List.nil_append] at hinv
  have hlog : ∃ m ≤ 1000,
      (runIter backend n (JobIterator.new α ps)).2.2 = List.range' 1 m := by
    rcases hinv with h | h
    · exact ⟨_, h.1, h.2⟩
    · exact ⟨1000, le_rfl, h.2.1⟩
  obtain ⟨m, hm, hlog⟩ := hlog
  refine ⟨?_, ?_, ?_⟩
  · rw [hlog, List.length_range']
    exact hm
  · intro p hp
    rw [hlog, List.mem_range'] at hp
    obtain ⟨i, hi, rfl⟩ := hp
    omega
  · intro t ht
    by_cases hfin : t.finished = true
    · rw [fetch_finished backend t hfin]
      exact ⟨rfl, hfin⟩
    · rw [fetch_eq_of_ceiling backend t (by simpa using hfin) (by omega)]
      exact ⟨rfl, rfl⟩

/-- Witness for C6 against a misbehaving backend that always returns a
full page and inconsistent metadata. -/
theorem c6_safety_ceiling_witness :
    (runIter (fun _ =>
        Except.ok (⟨[7, 8], some 0, some 0, some 0⟩ : JobSearchResponse Nat))
      3 (JobIterator.new Nat 2)).2.2.length ≤ 1000 :=
  (c6_safety_ceiling
    (fun _ =>
      Except.ok (⟨[7, 8], some 0, some 0, some 0⟩ : JobSearchResponse Nat))
    2 3).1

/-- C7 counterexample: reported total 2, first page exactly full with 2
items.  After two `next` calls the cumulative yielded count equals the
reported total, yet the third call still issues a fetch for page 2 (the
log grows from `[1]` to `[1, 2]`): the total-reached check runs only
*after* the backend call inside the following `fetch_next_page`.  The
claim would require the fetch log to stay `[1]`. -/
theorem c7_counterexample :
    (runIter (fun p =>
        if p = 1 then
          Except.ok (⟨[10, 11], some 2, none, none⟩ : JobSearchResponse Nat)
        else Except.ok ⟨[], none, none, none⟩) 2
      (JobIterator.new Nat 2)).2.1.total_yielded = 2 ∧
    (runIter (fun p =>
        if p = 1 then
          Except.ok (⟨[10, 11], some 2, none, none⟩ : JobSearchResponse Nat)
        else Except.ok ⟨[], none, none, none⟩) 2
      (JobIterator.new Nat 2)).2.1.max_results = some 2 ∧
    (runIter (fun p =>
        if p = 1 then
          Except.ok (⟨[10, 11], some 2, none, none⟩ : JobSearchResponse Nat)
        else Except.ok ⟨[], none, none, none⟩) 2
      (JobIterator.new Nat 2)).2.2 = [1] ∧
    (runIter (fun p =>
        if p = 1 then
          Except.ok (⟨[10, 11], some 2, none, none⟩ : JobSearchResponse Nat)
        else Except.ok ⟨[], none, none, none⟩) 3
      (JobIterator.new Nat 2)).2.2 = [1, 2] ∧
    (runIter (fun p =>
        if p = 1 then
          Except.ok (⟨[10, 11], some 2, none, none⟩ : JobSearchResponse Nat)
        else Except.ok ⟨[], none, none, none⟩) 3
      (JobIterator.new Nat 2)).1 =
      [some (Except.ok 10), some (Except.ok 11), none] :=
  ⟨rfl, rfl, rfl, rfl, rfl⟩

/-- C7 (amended): once the cumulative yielded count has reached the
total reported on the first page, the next `fetch_next_page` that
returns without error marks the engine finished — even when the last
page was exactly full — so at most that one further page fetch is ever
issued: a finished iterator never fetches again. -/
theorem c7_total_reached {α : Type}
    (backend : Nat → Except Error (JobSearchResponse α))
    (s : JobIterator α) (m : Nat) (b : Bool) (s' : JobIterator α)
    (log : List Nat)
    (hmax : s.max_results = some m) (hy : m ≤ s.total_yielded)
    (hcp : 1 ≤ s.current_page)
    (hfetch : JobIterator.fetch_next_page backend s =
      (Except.ok b, s', log)) :
    s'.finished = true ∧
      (∀ t : JobIterator α, t.finished = true →
        JobIterator.fetch_next_page backend t = (Except.ok false, t, [])) := by
  refine ⟨?_, fun t ht => fetch_finished backend t ht⟩
  by_cases hfin : s.finished = true
  · rw [fetch_finished backend s hfin] at hfetch
    simp only [Prod.mk.injEq] at hfetch
    rw [← hfetch.2.1]
    exact hfin
  · have hfin' : s.finished = false := by simpa using hfin
    by_cases hp : s.current_page + 1 ≤ 1000
    · cases hb : backend (s.current_page + 1) with
      | error e =>
        rw [fetch_eq_of_error backend s e hfin' hp hb] at hfetch
        simp at hfetch
      | ok r =>
        rw [fetch_eq_of_ok backend s r hfin' hp hb] at hfetch
        simp only [Prod.mk.injEq] at hfetch
        rw [← hfetch.2.1]
        have hne1 : ¬ s.current_page + 1 = 1 := by omega
        simp [hne1, hmax, hy]
    · rw [fetch_eq_of_ceiling backend s hfin' (by omega)] at hfetch
      simp only [Prod.mk.injEq] at hfetch
      rw [← hfetch.2.1]

/-- Witness for the amended C7 at a concrete state: page 1 already
consumed in full (2 of a reported total of 2 yielded), a further full
page served by the backend — the fetch still flips `finished`. -/
theorem c7_total_reached_witness :
    (⟨2, 2, [5, 6], 0, true, some 2, 2⟩ : JobIterator Nat).finished = true ∧
      (∀ t : JobIterator Nat, t.finished = true →
        JobIterator.fetch_next_page
            (fun _ => Except.ok
              (⟨[5, 6], none, none, none⟩ : JobSearchResponse Nat)) t =
          (Except.ok false, t, [])) :=
  c7_total_reached
    (fun _ => Except.ok (⟨[5, 6], none, none, none⟩ : JobSearchResponse Nat))
    ⟨1, 2, [], 0, false, some 2, 2⟩ 2 true ⟨2, 2, [5, 6], 0, true, some 2, 2⟩
    [2] rfl (by decide) (by decide) rfl

/-! ## Query encoding (`src/builder.rs`)

`SearchOptions` stores its parameters in a `BTreeMap<&'static str,
String>`: ordered by the keys' byte-wise lexicographic order, one value
per key, later inserts overwriting earlier ones.  The map is embedded as
a strictly sorted association list with a sorted insert.  String order
is byte-wise lexicographic on the UTF-8 encoding, which coincides with
code-point lexicographic order. -/

/-- Lexicographic order on character lists by code point (Rust's `str`
`Ord`). -/
def charListLt : List Char → List Char → Bool
  | [], [] => false
  | [], _ :: _ => true
  | _ :: _, [] => false
  | a :: as, b :: bs =>
    if a.toNat < b.toNat then true
    else if b.toNat < a.toNat then false
    else charListLt as bs

/-- String comparison used by the `BTreeMap` key order. -/
def strLt (a b : String) : Bool :=
  charListLt a.data b.data

/-- Embeds `BTreeMap::insert` on the sorted association list. -/
def btreeInsert (k v : String) :
    List (String × String) → List (String × String)
  | [] => [(k, v)]
  | (k', v') :: rest =>
    if strLt k k' then (k, v) :: (k', v') :: rest
    else if k = k' then (k, v) :: rest
    else (k', v') :: btreeInsert k v rest

/-- Embeds `SearchOptions` (`src/builder.rs`): the finalized parameter
map. -/
structure SearchOptions where
  params : List (String × String)
deriving DecidableEq, Repr

/-- Embeds `SearchOptionsBuilder`: the staging map. -/
structure SearchOptionsBuilder where
  params : List (String × String)
deriving DecidableEq, Repr

/-- Embeds `SearchOptionsBuilder::new`. -/
def SearchOptionsBuilder.new : SearchOptionsBuilder := ⟨[]⟩

/-- Every setter funnels into `self.params.insert(name, value)`. -/
def SearchOptionsBuilder.insert (b : SearchOptionsBuilder) (k v : String) :
    SearchOptionsBuilder :=
  ⟨btreeInsert k v b.params⟩

/-- Embeds `SearchOptionsBuilder::was`. -/
def SearchOptionsBuilder.was (b : SearchOptionsBuilder) (job_title : String) :
    SearchOptionsBuilder :=
  b.insert "was" job_title

/-- Embeds `SearchOptionsBuilder::wo`. -/
def SearchOptionsBuilder.wo (b : SearchOptionsBuilder) (location : String) :
    SearchOptionsBuilder :=
  b.insert "wo" location

/-- Embeds `SearchOptionsBuilder::page`. -/
def SearchOptionsBuilder.page (b : SearchOptionsBuilder) (p : Nat) :
    SearchOptionsBuilder :=
  b.insert "page" (Nat.repr p)

/-- Embeds `SearchOptionsBuilder::size` with its silent cap at 100. -/
def SearchOptionsBuilder.size (b : SearchOptionsBuilder) (s : Nat) :
    SearchOptionsBuilder :=
  b.insert "size" (Nat.repr (min s 100))

/-- Embeds `SearchOptionsBuilder::build`. -/
def SearchOptionsBuilder.build (b : SearchOptionsBuilder) : SearchOptions :=
  ⟨b.params⟩

/-- A sequence of `(name, value)` assignments applied to a fresh builder
and finalized. -/
def buildFrom (assignments : List (String × String)) : SearchOptions :=
  (assignments.foldl (fun b kv => b.insert kv.1 kv.2)
    SearchOptionsBuilder.new).build

/-- One hex digit, uppercase (as `form_urlencoded` emits). -/
def hexDigit (n : Nat) : Char :=
  if n < 10 then Char.ofNat (48 + n) else Char.ofNat (55 + n)

/-- `application/x-www-form-urlencoded` encoding of one byte: space
becomes `+`; ASCII alphanumerics and `*-._` pass through; everything
else is percent-encoded. -/
def urlencodeByte (b : Nat) : List Char :=
  if b = 32 then ['+']
  else if (48 ≤ b ∧ b ≤ 57) ∨ (65 ≤ b ∧ b ≤ 90) ∨ (97 ≤ b ∧ b ≤ 122) ∨
      b = 42 ∨ b = 45 ∨ b = 46 ∨ b = 95 then [Char.ofNat b]
  else ['%', hexDigit (b / 16), hexDigit (b % 16)]

/-- Form-urlencoding of a string's UTF-8 bytes. -/
def urlencode (s : String) : String :=
  String.mk ((utf8Encode s).map urlencodeByte).flatten

/-- Embeds `SearchOptions::serialize` (`src/builder.rs`): `None` when no
parameters are defined, otherwise the `k=v` pairs joined with `&` in map
(key) order, both sides form-urlencoded. -/
def SearchOptions.serialize (o : SearchOptions) : Option String :=
  if o.params.isEmpty then none
  else
    some (String.intercalate "&"
      (o.params.map fun kv => urlencode kv.1 ++ "=" ++ urlencode kv.2))

/-- Code points determine characters. -/
theorem char_toNat_inj (a b : Char) (h : a.toNat = b.toNat) : a = b := by
  have h2 : Char.ofNat a.toNat = Char.ofNat b.toNat := by rw [h]
  rwa [Char.ofNat_toNat, Char.ofNat_toNat] at h2

/-- The key order is irreflexive. -/
theorem charListLt_irrefl : ∀ a, charListLt a a = false := by
  intro a
  induction a with
  | nil => rfl
  | cons c cs ih => simp [charListLt, ih]

/-- The key order is asymmetric. -/
theorem charListLt_asymm :
    ∀ a b, charListLt a b = true → charListLt b a = false := by
  intro a
  induction a with
  | nil =>
    intro b h
    cases b with
    | nil => simp [charListLt] at h
    | cons d ds => rfl
  | cons c cs ih =>
    intro b h
    cases b with
    | nil => simp [charListLt] at h
    | cons d ds =>
      simp only [charListLt] at h ⊢
      split_ifs at h ⊢ <;> first | rfl | omega | exact ih ds h

/-- The key order is transitive. -/
theorem charListLt_trans :
    ∀ a b c, charListLt a b = true → charListLt b c = true →
      charListLt a c = true := by
  intro a
  induction a with
  | nil =>
    intro b c hab hbc
    cases b with
    | nil => simp [charListLt] at hab
    | cons d ds =>
      cases c with
      | nil => simp [charListLt] at hbc
      | cons e es => rfl
  | cons x xs ih =>
    intro b c hab hbc
    cases b with
    | nil => simp [charListLt] at hab
    | cons d ds =>
      cases c with
      | nil => simp [charListLt] at hbc
      | cons e es =>
        simp only [charListLt] at hab hbc ⊢
        split_ifs at hab hbc ⊢ <;>
          first | rfl | omega | exact ih ds es hab hbc

/-- Distinct keys are comparable one way or the other. -/
theorem charListLt_connex :
    ∀ a b, a ≠ b → charListLt a b = true ∨ charListLt b a = true := by
  intro a
  induction a with
  | nil =>
    intro b h
    cases b with
    | nil => exact absurd rfl h
    | cons d ds => exact Or.inl rfl
  | cons c cs ih =>
    intro b h
    cases b with
    | nil => exact Or.inr rfl
    | cons d ds =>
      by_cases h1 : c.toNat < d.toNat
      · exact Or.inl (by simp [charListLt, h1])
      · by_cases h2 : d.toNat < c.toNat
        · exact Or.inr (by simp [charListLt, h2])
        · have hcd : c = d := char_toNat_inj c d (by omega)
          subst hcd
          have hne : cs ≠ ds := fun hcs => h (by rw [hcs])
          rcases ih ds hne with h3 | h3
          · exact Or.inl (by simp [charListLt, h3])
          · exact Or.inr (by simp [charListLt, h3])

/-- Strings with the same characters are equal. -/
theorem string_data_inj (a b : String) (h : a.data = b.data) : a = b := by
  cases a
  cases b
  exact congrArg String.mk h

/-- `strLt` inherits irreflexivity, asymmetry, transitivity, and
comparability of distinct keys. -/
theorem strLt_irrefl (a : String) : strLt a a = false :=
  charListLt_irrefl a.data

theorem strLt_asymm (a b : String) (h : strLt a b = true) :
    strLt b a = false :=
  charListLt_asymm a.data b.data h

theorem strLt_trans (a b c : String) (h1 : strLt a b = true)
    (h2 : strLt b c = true) : strLt a c = true :=
  charListLt_trans a.data b.data c.data h1 h2

theorem strLt_connex (a b : String) (h : a ≠ b) :
    strLt a b = true ∨ strLt b a = true :=
  charListLt_connex a.data b.data fun hd => h (string_data_inj a b hd)

/-- `BTreeMap` inserts with distinct keys commute. -/
theorem btreeInsert_comm (k1 k2 v1 v2 : String) (hne : k1 ≠ k2) :
    ∀ l, btreeInsert k1 v1 (btreeInsert k2 v2 l) =
      btreeInsert k2 v2 (btreeInsert k1 v1 l) := by
  intro l
  induction l with
  | nil =>
    rcases strLt_connex k1 k2 hne with h | h
    · simp [btreeInsert, h, strLt_asymm _ _ h, hne, Ne.symm hne]
    · simp [btreeInsert, h, strLt_asymm _ _ h, hne, Ne.symm hne]
  | cons hd tl ih =>
    obtain ⟨k', v'⟩ := hd
    by_cases h1 : strLt k1 k' = true
    · by_cases h2 : strLt k2 k' = true
      · rcases strLt_connex k1 k2 hne with h12 | h21
        · simp [btreeInsert, h1, h2, h12, strLt_asymm _ _ h12, hne,
            Ne.symm hne]
        · simp [btreeInsert, h1, h2, h21, strLt_asymm _ _ h21, hne,
            Ne.symm hne]
      · by_cases e2 : k2 = k'
        · subst e2
          simp [btreeInsert, h1, strLt_asymm _ _ h1, Ne.symm hne,
            strLt_irrefl]
        · have h2' : strLt k' k2 = true := by
            rcases strLt_connex k2 k' e2 with h | h
            · exact absurd h h2
            · exact h
          have h12 : strLt k1 k2 = true := strLt_trans _ _ _ h1 h2'
          simp [btreeInsert, h1, h2, e2, strLt_asymm _ _ h12, Ne.symm hne]
    · by_cases e1 : k1 = k'
      · subst e1
        by_cases h2 : strLt k2 k1 = true
        · simp [btreeInsert, h2, strLt_asymm _ _ h2, hne, Ne.symm hne,
            strLt_irrefl]
        · have e2 : ¬ k2 = k1 := Ne.symm hne
          simp [btreeInsert, h2, e2, strLt_irrefl, hne]
      · have h1' : strLt k' k1 = true := by
          rcases strLt_connex k1 k' e1 with h | h
          · exact absurd h h1
          · exact h
        by_cases h2 : strLt k2 k' = true
        · have h21 : strLt k2 k1 = true := strLt_trans _ _ _ h2 h1'
          simp [btreeInsert, h1, e1, h2, strLt_asymm _ _ h21, hne,
            Ne.symm hne]
        · by_cases e2 : k2 = k'
          · subst e2
            simp [btreeInsert, h1, hne, Ne.symm hne, strLt_irrefl, e1]
          · simp only [btreeInsert]
            rw [if_neg h2, if_neg e2, if_neg h1, if_neg e1]
            simp only [btreeInsert]
            rw [if_neg h1, if_neg e1, if_neg h2, if_neg e2, ih]

/-- Members of an insert are the new pair or old members. -/
theorem btreeInsert_mem (k v : String) :
    ∀ (l : List (String × String)) (a : String × String),
      a ∈ btreeInsert k v l → a = (k, v) ∨ a ∈ l := by
  intro l
  induction l with
  | nil =>
    intro a ha
    simp [btreeInsert] at ha
    exact Or.inl ha
  | cons hd tl ih =>
    obtain ⟨k', v'⟩ := hd
    intro a ha
    rw [btreeInsert] at ha
    split_ifs at ha with h1 e1
    · rcases List.mem_cons.mp ha with rfl | ha
      · exact Or.inl rfl
      · exact Or.inr ha
    · rcases List.mem_cons.mp ha with rfl | ha
      · exact Or.inl rfl
      · exact Or.inr (List.mem_cons_of_mem _ ha)
    · rcases List.mem_cons.mp ha with rfl | ha
      · exact Or.inr (List.mem_cons_self _ _)
      · rcases ih a ha with h | h
        · exact Or.inl h
        · exact Or.inr (List.mem_cons_of_mem _ h)

/-- Inserting into a strictly sorted map keeps it strictly sorted. -/
theorem btreeInsert_sorted (k v : String) :
    ∀ l : List (String × String),
      l.Pairwise (fun a b => strLt a.1 b.1 = true) →
      (btreeInsert k v l).Pairwise (fun a b => strLt a.1 b.1 = true) := by
  intro l
  induction l with
  | nil =>
    intro _
    simp [btreeInsert]
  | cons hd tl ih =>
    obtain ⟨k', v'⟩ := hd
    intro hp
    rw [List.pairwise_cons] at hp
    obtain ⟨hall, htl⟩ := hp
    by_cases h1 : strLt k k' = true
    · rw [btreeInsert, if_pos h1, List.pairwise_cons]
      refine ⟨?_, List.pairwise_cons.mpr ⟨hall, htl⟩⟩
      intro a ha
      rcases List.mem_cons.mp ha with rfl | ha
      · exact h1
      · exact strLt_trans _ _ _ h1 (hall a ha)
    · by_cases e1 : k = k'
      · rw [btreeInsert, if_neg h1, if_pos e1, List.pairwise_cons]
        subst e1
        exact ⟨hall, htl⟩
      · rw [btreeInsert, if_neg h1, if_neg e1, List.pairwise_cons]
        refine ⟨?_, ih htl⟩
        intro a ha
        rcases btreeInsert_mem k v tl a ha with rfl | ha
        · rcases strLt_connex k k' e1 with h | h
          · exact absurd h h1
          · exact h
        · exact hall a ha

/-- Folding assignments into a fresh builder keeps the map sorted. -/
theorem buildFold_sorted :
    ∀ (l : List (String × String)) (b : SearchOptionsBuilder),
      b.params.Pairwise (fun a c => strLt a.1 c.1 = true) →
      ((l.foldl (fun b kv => b.insert kv.1 kv.2) b).params).Pairwise
        (fun a c => strLt a.1 c.1 = true) := by
  intro l
  induction l with
  | nil => exact fun b h => h
  | cons hd tl ih =>
    intro b h
    exact ih _ (btreeInsert_sorted hd.1 hd.2 b.params h)

/-- C8 counterexample: the claim as stated quantifies over arbitrary
`(name, value)` assignment multisets; assigning the same name twice with
different values is order-dependent (later writes win in the
`BTreeMap`), so the two insertion orders serialize differently. -/
theorem c8_counterexample :
    ((SearchOptionsBuilder.new.was "a").was "b").build.serialize ≠
      ((SearchOptionsBuilder.new.was "b").was "a").build.serialize := by
  decide

/-- C8 (amended): for assignment sequences in which no parameter name
occurs twice, any two insertion orders produce the same finalized
options — hence byte-identical `serialize` output — and the parameters
stand in strictly increasing (lexicographic) name order. -/
theorem c8_canonical_order (l1 l2 : List (String × String))
    (hperm : l1.Perm l2)
    (hdist : l1.Pairwise (fun a b => a.1 ≠ b.1)) :
    (buildFrom l1).serialize = (buildFrom l2).serialize ∧
      (buildFrom l1).params.Pairwise (fun a b => strLt a.1 b.1 = true) := by
  constructor
  · have hcomm : ∀ x ∈ l1, ∀ y ∈ l1, ∀ z : SearchOptionsBuilder,
        (fun b kv => SearchOptionsBuilder.insert b kv.1 kv.2)
            ((fun b kv => SearchOptionsBuilder.insert b kv.1 kv.2) z x) y =
          (fun b kv => SearchOptionsBuilder.insert b kv.1 kv.2)
            ((fun b kv => SearchOptionsBuilder.insert b kv.1 kv.2) z y) x := by
      intro x hx y hy z
      by_cases hxy : x = y
      · subst hxy
        rfl
      · have hsym : Symmetric (fun a b : String × String => a.1 ≠ b.1) :=
          fun _ _ h => Ne.symm h
        have hne : x.1 ≠ y.1 := hdist.forall hsym hx hy hxy
        show SearchOptionsBuilder.mk _ = SearchOptionsBuilder.mk _
        exact congrArg _ (btreeInsert_comm y.1 x.1 y.2 x.2 (Ne.symm hne)
          z.params)
    have hfold := @List.Perm.foldl_eq' SearchOptionsBuilder (String × String)
      (fun b kv => SearchOptionsBuilder.insert b kv.1 kv.2) l1 l2 hperm hcomm
      SearchOptionsBuilder.new
    unfold buildFrom
    rw [hfold]
  · exact buildFold_sorted l1 SearchOptionsBuilder.new List.Pairwise.nil

/-- Witness for the amended C8: two assignments in both orders. -/
theorem c8_canonical_order_witness :
    (buildFrom [("wo", "Berlin"), ("was", "Dev")]).serialize =
      (buildFrom [("was", "Dev"), ("wo", "Berlin")]).serialize ∧
    (buildFrom [("wo", "Berlin"), ("was", "Dev")]).params.Pairwise
      (fun a b => strLt a.1 b.1 = true) :=
  c8_canonical_order _ _ (List.Perm.swap _ _ _) (by decide)
